import Mathlib

/-!
Shallow embedding of `src/solution.py`, an N-body gravity simulator.

A Python body is a tuple `(mass, (x, y), (vx, vy))` of floats; we model the
numerics with exact real arithmetic.  Python raises `ZeroDivisionError` on
float division by zero; every operation that can divide by zero is therefore
modelled as `Option`-valued, `none` standing for the raised exception.
Python's `!=` on tuples is structural value comparison, which the model
mirrors with propositional equality on `Body` (classical decidability).
-/

open Classical

set_option maxHeartbeats 1000000

structure Body where
  mass : ℝ
  pos : ℝ × ℝ
  vel : ℝ × ℝ

attribute [ext] Body

/-- `G = 6.67408e-11` (line 4 of the source). -/
def G : ℝ := 6.67408e-11

/-- `calculate_distance(body1, body2)`: Euclidean distance between the two
positions (line 14–16). -/
noncomputable def calculate_distance (body1 body2 : Body) : ℝ :=
  Real.sqrt ((body1.pos.1 - body2.pos.1) ^ 2 + (body1.pos.2 - body2.pos.2) ^ 2)

/-- `calculate_force(body1, body2)` (lines 18–28): the gravitational force on
`body1` due to `body2`.  When `r = 0` the Python code divides a float by zero
and raises `ZeroDivisionError`, modelled by `none`. -/
noncomputable def calculate_force (body1 body2 : Body) : Option (ℝ × ℝ) :=
  let r := calculate_distance body1 body2
  if r = 0 then none
  else
    let rx := body2.pos.1 - body1.pos.1
    let ry := body2.pos.2 - body1.pos.2
    let f := G * body1.mass * body2.mass / r ^ 2
    some (f * rx / r, f * ry / r)

/-- The accumulating loop of `calculate_net_force_on` (lines 32–39): fold over
the remaining bodies, skipping any element that is value-equal to
`body` (Python `other != body`), and propagating a raised `ZeroDivisionError`
as `none`. -/
noncomputable def net_force_aux (body : Body) : List Body → ℝ × ℝ → Option (ℝ × ℝ)
  | [], acc => some acc
  | other :: rest, acc =>
    if other = body then net_force_aux body rest acc
    else
      match calculate_force body other with
      | none => none
      | some force => net_force_aux body rest (acc.1 + force.1, acc.2 + force.2)

/-- `calculate_net_force_on(body, system)` (lines 30–41). -/
noncomputable def calculate_net_force_on (body : Body) (system : List Body) :
    Option (ℝ × ℝ) :=
  net_force_aux body system (0.0, 0.0)

/-- `calculate_acceleration(body, system)` (lines 43–48): net force divided
componentwise by the mass; a zero mass would make Python raise
`ZeroDivisionError`, modelled by `none`. -/
noncomputable def calculate_acceleration (body : Body) (system : List Body) :
    Option (ℝ × ℝ) :=
  match calculate_net_force_on body system with
  | none => none
  | some (fx, fy) => if body.mass = 0 then none else some (fx / body.mass, fy / body.mass)

/-- The loop body of `update_velocity` (lines 52–57): Python iterates `i` over
`range(len(system))` (computed once; `system.set` keeps the length constant)
and mutates `system[i]` in place, so later iterations see the velocities
written by earlier ones. -/
noncomputable def update_velocity_go (dt : ℝ) : List ℕ → List Body → Option (List Body)
  | [], system => some system
  | i :: rest, system =>
    match system[i]? with
    | none => none
    | some b =>
      match calculate_acceleration b system with
      | none => none
      | some (ax, ay) =>
        update_velocity_go dt rest
          (system.set i ⟨b.mass, b.pos, (b.vel.1 + ax * dt, b.vel.2 + ay * dt)⟩)

/-- `update_velocity(system, dt)` (lines 50–59). -/
noncomputable def update_velocity (system : List Body) (dt : ℝ) : Option (List Body) :=
  update_velocity_go dt (List.range system.length) system

/-- The position loop of `update` (lines 66–70): each iteration reads and
writes only slot `i`, so the in-place loop is a map over the list. -/
noncomputable def update_positions (system : List Body) (dt : ℝ) : List Body :=
  system.map fun b => ⟨b.mass, (b.pos.1 + b.vel.1 * dt, b.pos.2 + b.vel.2 * dt), b.vel⟩

/-- `update(system, dt)` (lines 62–72): update all velocities, then all
positions. -/
noncomputable def update (system : List Body) (dt : ℝ) : Option (List Body) :=
  match update_velocity system dt with
  | none => none
  | some system2 => some (update_positions system2 dt)

/-- The counted loop of `simulate` (lines 76–77). -/
noncomputable def simulate_go (dt : ℝ) : ℕ → List Body → Option (List Body)
  | 0, system => some system
  | n + 1, system =>
    match update system dt with
    | none => none
    | some system2 => simulate_go dt n system2

/-- `simulate(system, dt, num_steps)` (lines 74–79): Python's
`range(num_steps)` is empty for a non-positive argument, hence the `Int.toNat`. -/
noncomputable def simulate (system : List Body) (dt : ℝ) (num_steps : ℤ) :
    Option (List Body) :=
  simulate_go dt num_steps.toNat system

/-! ### Basic facts about distance and pairwise force -/

lemma calculate_distance_eq_zero_iff (a b : Body) :
    calculate_distance a b = 0 ↔ a.pos = b.pos := by
  unfold calculate_distance
  rw [Real.sqrt_eq_zero (by positivity)]
  constructor
  · intro h
    have h1 : (a.pos.1 - b.pos.1) ^ 2 = 0 ∧ (a.pos.2 - b.pos.2) ^ 2 = 0 := by
      constructor <;> nlinarith [sq_nonneg (a.pos.1 - b.pos.1), sq_nonneg (a.pos.2 - b.pos.2)]
    have hx : a.pos.1 = b.pos.1 := by nlinarith [h1.1]
    have hy : a.pos.2 = b.pos.2 := by nlinarith [h1.2]
    exact Prod.ext hx hy
  · intro h
    rw [h]
    ring

lemma calculate_distance_comm (a b : Body) :
    calculate_distance a b = calculate_distance b a := by
  unfold calculate_distance
  ring_nf

lemma calculate_force_eq_none_iff (a b : Body) :
    calculate_force a b = none ↔ a.pos = b.pos := by
  rw [← calculate_distance_eq_zero_iff]
  unfold calculate_force
  by_cases h : calculate_distance a b = 0 <;> simp [h]

lemma calculate_force_mass_pos_congr (a b a2 b2 : Body)
    (hma : a.mass = a2.mass) (hpa : a.pos = a2.pos)
    (hmb : b.mass = b2.mass) (hpb : b.pos = b2.pos) :
    calculate_force a b = calculate_force a2 b2 := by
  obtain ⟨am, ap, av⟩ := a
  obtain ⟨bm, bp, bv⟩ := b
  obtain ⟨am2, ap2, av2⟩ := a2
  obtain ⟨bm2, bp2, bv2⟩ := b2
  simp only at hma hpa hmb hpb
  subst hma hpa hmb hpb
  simp [calculate_force, calculate_distance]

lemma calculate_force_eq_of_ne (a b : Body) (h : a.pos ≠ b.pos) :
    calculate_force a b = some
      (G * a.mass * b.mass / calculate_distance a b ^ 2 * (b.pos.1 - a.pos.1) /
        calculate_distance a b,
       G * a.mass * b.mass / calculate_distance a b ^ 2 * (b.pos.2 - a.pos.2) /
        calculate_distance a b) := by
  have hr : calculate_distance a b ≠ 0 := fun hc =>
    h ((calculate_distance_eq_zero_iff a b).mp hc)
  simp [calculate_force, hr]

/-! ### C3, C7, C8, C10: pairwise force -/

/-- C3: for two bodies with distinct positions, `calculate_force a b` returns
exactly `(f * (bx - ax) / r, f * (by - ay) / r)` where
`r = sqrt((bx - ax)^2 + (by - ay)^2)` and `f = G * mass(a) * mass(b) / r^2`
(purity is inherent to the functional embedding). -/
theorem calculate_force_spec_formula (a b : Body) (h : a.pos ≠ b.pos) :
    calculate_force a b = some
      (G * a.mass * b.mass / Real.sqrt ((b.pos.1 - a.pos.1) ^ 2 + (b.pos.2 - a.pos.2) ^ 2) ^ 2 *
        (b.pos.1 - a.pos.1) / Real.sqrt ((b.pos.1 - a.pos.1) ^ 2 + (b.pos.2 - a.pos.2) ^ 2),
       G * a.mass * b.mass / Real.sqrt ((b.pos.1 - a.pos.1) ^ 2 + (b.pos.2 - a.pos.2) ^ 2) ^ 2 *
        (b.pos.2 - a.pos.2) / Real.sqrt ((b.pos.1 - a.pos.1) ^ 2 + (b.pos.2 - a.pos.2) ^ 2)) := by
  have hd : calculate_distance a b =
      Real.sqrt ((b.pos.1 - a.pos.1) ^ 2 + (b.pos.2 - a.pos.2) ^ 2) := by
    rw [calculate_distance_comm]; rfl
  rw [calculate_force_eq_of_ne a b h, hd]

/-- Witness for C3: two concrete bodies at distance 5. -/
theorem calculate_force_spec_formula_witness :
    calculate_force ⟨2, (0, 0), (0, 0)⟩ ⟨5, (3, 4), (0, 0)⟩ = some
      (G * 2 * 5 / Real.sqrt (3 ^ 2 + 4 ^ 2) ^ 2 * 3 / Real.sqrt (3 ^ 2 + 4 ^ 2),
       G * 2 * 5 / Real.sqrt (3 ^ 2 + 4 ^ 2) ^ 2 * 4 / Real.sqrt (3 ^ 2 + 4 ^ 2)) := by
  have h := calculate_force_spec_formula ⟨2, (0, 0), (0, 0)⟩ ⟨5, (3, 4), (0, 0)⟩
    (by simp [Prod.ext_iff])
  norm_num at h ⊢
  exact h

/-- C7: `calculate_force` fails (raises `ZeroDivisionError`, modelled `none`)
exactly when the distance `r` between the two bodies is zero, which happens
exactly when the positions coincide; otherwise it returns a value (no NaN or
epsilon clamping exists in the model). -/
theorem calculate_force_none_iff_zero_distance (a b : Body) :
    (calculate_force a b = none ↔ calculate_distance a b = 0) ∧
    (calculate_distance a b = 0 ↔ a.pos = b.pos) := by
  refine ⟨?_, calculate_distance_eq_zero_iff a b⟩
  rw [calculate_force_eq_none_iff, calculate_distance_eq_zero_iff]

/-- C8: Newton's third law: for bodies at distinct positions the force on `a`
due to `b` is the componentwise negation of the force on `b` due to `a`. -/
theorem newton_third_law (a b : Body) (h : a.pos ≠ b.pos) :
    ∃ fx fy : ℝ, calculate_force a b = some (fx, fy) ∧
      calculate_force b a = some (-fx, -fy) := by
  refine ⟨_, _, calculate_force_eq_of_ne a b h, ?_⟩
  rw [calculate_force_eq_of_ne b a (Ne.symm h), calculate_distance_comm b a]
  simp only [Option.some.injEq, Prod.mk.injEq]
  constructor <;> ring

/-- Witness for C8 at two concrete bodies. -/
theorem newton_third_law_witness :
    ∃ fx fy : ℝ, calculate_force ⟨2, (0, 0), (0, 0)⟩ ⟨5, (3, 4), (0, 0)⟩ = some (fx, fy) ∧
      calculate_force ⟨5, (3, 4), (0, 0)⟩ ⟨2, (0, 0), (0, 0)⟩ = some (-fx, -fy) :=
  newton_third_law _ _ (by simp [Prod.ext_iff])

/-- C10: `calculate_force` depends only on the masses and positions of its two
arguments, never on their velocities. -/
theorem calculate_force_ignores_velocity (a b a2 b2 : Body)
    (hma : a.mass = a2.mass) (hpa : a.pos = a2.pos)
    (hmb : b.mass = b2.mass) (hpb : b.pos = b2.pos) :
    calculate_force a b = calculate_force a2 b2 :=
  calculate_force_mass_pos_congr a b a2 b2 hma hpa hmb hpb

/-- Witness for C10: same masses and positions, different velocities. -/
theorem calculate_force_ignores_velocity_witness :
    calculate_force ⟨1, (0, 0), (5, 7)⟩ ⟨2, (3, 4), (9, 9)⟩ =
      calculate_force ⟨1, (0, 0), (0, 1)⟩ ⟨2, (3, 4), (2, 2)⟩ :=
  calculate_force_ignores_velocity _ _ _ _ rfl rfl rfl rfl

/-! ### C1: the self-exclusion test of `calculate_net_force_on` -/

/-- Summing `calculate_force body other` over a whole list, with no exclusion
test at all (used to express which slots `calculate_net_force_on` sums). -/
noncomputable def sum_forces (body : Body) : List Body → ℝ × ℝ → Option (ℝ × ℝ)
  | [], acc => some acc
  | other :: rest, acc =>
    match calculate_force body other with
    | none => none
    | some force => sum_forces body rest (acc.1 + force.1, acc.2 + force.2)

/-- The list with every element value-equal to `body` removed. -/
noncomputable def remove_equal (body : Body) : List Body → List Body
  | [] => []
  | other :: rest =>
    if other = body then remove_equal body rest else other :: remove_equal body rest

/-- Spec-side definition, following the words of the claim for `netForce`:
sum `pairwiseForce(body, other)` over every slot `j ≠ i`, excluding only the
body's own slot `i` by index (identity), never by value.  `j` is the index of
the head of the remaining list. -/
noncomputable def identity_slots_aux (body : Body) (i : ℕ) :
    ℕ → List Body → ℝ × ℝ → Option (ℝ × ℝ)
  | _, [], acc => some acc
  | j, other :: rest, acc =>
    if j = i then identity_slots_aux body i (j + 1) rest acc
    else
      match calculate_force body other with
      | none => none
      | some force =>
        identity_slots_aux body i (j + 1) rest (acc.1 + force.1, acc.2 + force.2)

/-- Spec-side net force on the body in slot `i`: identity (slot) exclusion. -/
noncomputable def net_force_identity_spec (body : Body) (i : ℕ) (system : List Body) :
    Option (ℝ × ℝ) :=
  identity_slots_aux body i 0 system (0.0, 0.0)

/-- Counterexample to C1: in the two-slot system `[A, A]` (slot 1 holds a body
with identical mass, position and velocity to slot 0's body `A`), the code
skips slot 1 by value equality and returns `some (0, 0)`, while the claimed
identity-exclusion sum would include slot 1's contribution
(`calculate_force A A`, a division by zero). -/
theorem net_force_identity_exclusion_cex :
    calculate_net_force_on ⟨1, (1, 2), (3, 4)⟩
        [⟨1, (1, 2), (3, 4)⟩, ⟨1, (1, 2), (3, 4)⟩] ≠
      net_force_identity_spec ⟨1, (1, 2), (3, 4)⟩ 0
        [⟨1, (1, 2), (3, 4)⟩, ⟨1, (1, 2), (3, 4)⟩] := by
  have hL : calculate_net_force_on (⟨1, (1, 2), (3, 4)⟩ : Body)
      [⟨1, (1, 2), (3, 4)⟩, ⟨1, (1, 2), (3, 4)⟩] = some (0.0, 0.0) := by
    simp [calculate_net_force_on, net_force_aux]
  have hz : calculate_force (⟨1, (1, 2), (3, 4)⟩ : Body) ⟨1, (1, 2), (3, 4)⟩ = none :=
    (calculate_force_eq_none_iff _ _).mpr rfl
  have hR : net_force_identity_spec (⟨1, (1, 2), (3, 4)⟩ : Body) 0
      [⟨1, (1, 2), (3, 4)⟩, ⟨1, (1, 2), (3, 4)⟩] = none := by
    simp [net_force_identity_spec, identity_slots_aux, hz]
  rw [hL, hR]
  simp

/-- C1 (amended): `calculate_net_force_on` sums `calculate_force body other`
over exactly the slots whose value differs from `body`; every slot holding a
body with identical mass, position and velocity is skipped (value exclusion,
not slot-identity exclusion). -/
theorem net_force_value_exclusion (body : Body) (system : List Body) :
    calculate_net_force_on body system =
      sum_forces body (remove_equal body system) (0.0, 0.0) := by
  suffices h : ∀ l acc, net_force_aux body l acc =
      sum_forces body (remove_equal body l) acc from h system (0.0, 0.0)
  intro l
  induction l with
  | nil => intro acc; rfl
  | cons o rest ih =>
    intro acc
    by_cases ho : o = body
    · simp only [net_force_aux, remove_equal, if_pos ho]
      exact ih acc
    · simp only [net_force_aux, remove_equal, if_neg ho, sum_forces]
      cases hf : calculate_force body o with
      | none => rfl
      | some f => exact ih _

/-! ### C5, C6: `simulate` -/

lemma simulate_go_eq_iterate (dt : ℝ) (k : ℕ) (s : List Body) :
    simulate_go dt k s =
      (fun o => Option.bind o fun s2 => update s2 dt)^[k] (some s) := by
  induction k generalizing s with
  | zero => rfl
  | succ m ih =>
    rw [Function.iterate_succ_apply]
    show simulate_go dt (m + 1) s =
      (fun o => Option.bind o fun s2 => update s2 dt)^[m] (update s dt)
    cases hu : update s dt with
    | none =>
      have hgo : simulate_go dt (m + 1) s = none := by simp only [simulate_go, hu]
      rw [hgo, Function.iterate_fixed rfl m]
    | some s2 =>
      have hgo : simulate_go dt (m + 1) s = simulate_go dt m s2 := by
        simp only [simulate_go, hu]
      rw [hgo, ih s2]

/-- C5: `simulate` applies `update` exactly `numSteps` times in sequence
(as an iterate of the `Option`-bind of one step), and zero steps returns the
input system unchanged. -/
theorem simulate_iterates_update (system : List Body) (dt : ℝ) (n : ℕ) :
    simulate system dt (n : ℤ) =
      (fun o => Option.bind o fun s2 => update s2 dt)^[n] (some system) ∧
    simulate system dt 0 = some system := by
  constructor
  · rw [simulate, Int.toNat_natCast]
    exact simulate_go_eq_iterate dt n system
  · rfl

/-- Counterexample to C6: a negative `num_steps` does not fail; Python's
`range` of a negative number is empty, so `simulate` returns the input
system successfully (here `num_steps = -3`). -/
theorem simulate_negative_steps_cex :
    simulate [⟨1, (0, 0), (0, 0)⟩] 1 (-3) = some [⟨1, (0, 0), (0, 0)⟩] := by
  rw [simulate, Int.toNat_of_nonpos (by norm_num)]
  rfl

/-- C6 (amended): for every negative `num_steps`, `simulate` performs zero
steps and returns the input system unchanged, raising no error. -/
theorem simulate_negative_steps_noop (system : List Body) (dt : ℝ) (n : ℤ)
    (h : n < 0) : simulate system dt n = some system := by
  rw [simulate, Int.toNat_of_nonpos h.le]
  rfl

/-- Witness for the amended C6 at `num_steps = -2`. -/
theorem simulate_negative_steps_noop_witness :
    simulate [⟨1, (0, 0), (0, 0)⟩] 1 (-2) = some [⟨1, (0, 0), (0, 0)⟩] :=
  simulate_negative_steps_noop _ _ _ (by norm_num)

/-! ### C9: `simulate` preserves length and masses -/

lemma update_velocity_go_preserves (dt : ℝ) :
    ∀ (idxs : List ℕ) (s out : List Body),
      update_velocity_go dt idxs s = some out →
      out.length = s.length ∧
        ∀ k (hk : k < s.length) (hk2 : k < out.length),
          out[k].mass = s[k].mass ∧ out[k].pos = s[k].pos := by
  intro idxs
  induction idxs with
  | nil =>
    intro s out h
    obtain rfl : s = out := by simpa [update_velocity_go] using h
    exact ⟨rfl, fun k hk hk2 => ⟨rfl, rfl⟩⟩
  | cons i rest ih =>
    intro s out h
    simp only [update_velocity_go] at h
    split at h
    · exact Option.noConfusion h
    · rename_i b hq
      split at h
      · exact Option.noConfusion h
      · rename_i ax ay ha
        have hrec := ih (s.set i ⟨b.mass, b.pos, (b.vel.1 + ax * dt, b.vel.2 + ay * dt)⟩)
          out h
        obtain ⟨hib, hie⟩ := List.getElem?_eq_some.mp hq
        have hlen : out.length = s.length := by
          rw [hrec.1, List.length_set]
        refine ⟨hlen, fun k hk hk2 => ?_⟩
        have hks : k < (s.set i ⟨b.mass, b.pos, (b.vel.1 + ax * dt, b.vel.2 + ay * dt)⟩).length := by
          rw [List.length_set]; exact hk
        have h2 := hrec.2 k hks hk2
        by_cases hki : k = i
        · subst hki
          rw [List.getElem_set_self hks] at h2
          rw [h2.1, h2.2, ← hie]
          exact ⟨rfl, rfl⟩
        · rw [List.getElem_set_ne (fun hh => hki hh.symm) hks] at h2
          exact h2

lemma update_preserves (s : List Body) (dt : ℝ) (out : List Body)
    (h : update s dt = some out) :
    out.length = s.length ∧
      ∀ k (hk : k < s.length) (hk2 : k < out.length), out[k].mass = s[k].mass := by
  unfold update at h
  cases hu : update_velocity s dt with
  | none => rw [hu] at h; exact absurd h (by simp)
  | some mid =>
    rw [hu] at h
    have hmid : update_positions mid dt = out := Option.some.inj h
    subst hmid
    have hp := update_velocity_go_preserves dt (List.range s.length) s mid hu
    have hlen : (update_positions mid dt).length = s.length := by
      rw [update_positions, List.length_map, hp.1]
    refine ⟨hlen, fun k hk hk2 => ?_⟩
    have hkm : k < mid.length := by rw [hp.1]; exact hk
    have hout : (update_positions mid dt)[k] = (⟨(mid[k]).mass,
        ((mid[k]).pos.1 + (mid[k]).vel.1 * dt, (mid[k]).pos.2 + (mid[k]).vel.2 * dt),
        (mid[k]).vel⟩ : Body) := by
      simp only [update_positions]
      exact List.getElem_map _
    rw [hout]
    exact (hp.2 k hk hkm).1

lemma simulate_go_preserves (dt : ℝ) :
    ∀ (n : ℕ) (s out : List Body),
      simulate_go dt n s = some out →
      out.length = s.length ∧
        ∀ k (hk : k < s.length) (hk2 : k < out.length), out[k].mass = s[k].mass := by
  intro n
  induction n with
  | zero =>
    intro s out h
    obtain rfl : s = out := by simpa [simulate_go] using h
    exact ⟨rfl, fun k hk hk2 => rfl⟩
  | succ m ih =>
    intro s out h
    simp only [simulate_go] at h
    cases hu : update s dt with
    | none => rw [hu] at h; exact absurd h (by simp)
    | some s2 =>
      rw [hu] at h
      have h1 := update_preserves s dt s2 hu
      have h2 := ih s2 out h
      have hlen : out.length = s.length := by rw [h2.1, h1.1]
      refine ⟨hlen, fun k hk hk2 => ?_⟩
      have hk1 : k < s2.length := by rw [h1.1]; exact hk
      rw [h2.2 k hk1 hk2, h1.2 k hk hk1]

/-- C9: `simulate` preserves the number of bodies and the mass in each slot;
hence if every mass is positive initially, every mass is positive in the
result. -/
theorem simulate_preserves_length_and_mass (system : List Body) (dt : ℝ) (n : ℤ)
    (out : List Body) (h : simulate system dt n = some out) :
    out.length = system.length ∧
    (∀ k (hk : k < system.length) (hk2 : k < out.length),
      out[k].mass = system[k].mass) ∧
    ((∀ b ∈ system, 0 < b.mass) → ∀ b ∈ out, 0 < b.mass) := by
  rw [simulate] at h
  have hp := simulate_go_preserves dt n.toNat system out h
  refine ⟨hp.1, hp.2, fun hpos b hb => ?_⟩
  obtain ⟨⟨k, hk2⟩, hbk⟩ := List.mem_iff_get.mp hb
  have hk : k < system.length := by rw [← hp.1]; exact hk2
  have : b.mass = system[k].mass := by
    rw [← hbk]
    simpa [List.get_eq_getElem] using hp.2 k hk hk2
  rw [this]
  exact hpos _ (List.getElem_mem hk)

/-- Witness for C9: one concrete body, zero steps. -/
theorem simulate_preserves_length_and_mass_witness :
    simulate [⟨1, (0, 0), (2, 3)⟩] 1 0 = some [⟨1, (0, 0), (2, 3)⟩] ∧
    (([⟨1, (0, 0), (2, 3)⟩] : List Body).length =
        ([⟨1, (0, 0), (2, 3)⟩] : List Body).length ∧
    (∀ k (hk : k < ([⟨1, (0, 0), (2, 3)⟩] : List Body).length)
        (hk2 : k < ([⟨1, (0, 0), (2, 3)⟩] : List Body).length),
      ([(⟨1, (0, 0), (2, 3)⟩ : Body)])[k].mass = ([(⟨1, (0, 0), (2, 3)⟩ : Body)])[k].mass) ∧
    ((∀ b ∈ ([⟨1, (0, 0), (2, 3)⟩] : List Body), 0 < b.mass) →
      ∀ b ∈ ([⟨1, (0, 0), (2, 3)⟩] : List Body), 0 < b.mass)) :=
  ⟨rfl, simulate_preserves_length_and_mass [⟨1, (0, 0), (2, 3)⟩] 1 0 [⟨1, (0, 0), (2, 3)⟩] rfl⟩

/-! ### C4: `update` = velocity pass then position pass -/

/-- C4: `update` first updates every velocity (the `update_velocity` call),
then updates every position exactly once, each new position being the old
position plus `dt` times the velocity already updated in the same step. -/
theorem update_velocity_then_positions (system : List Body) (dt : ℝ) (out : List Body)
    (h : update system dt = some out) :
    ∃ mid, update_velocity system dt = some mid ∧
      out.length = mid.length ∧
      ∀ k (hk : k < mid.length) (hk2 : k < out.length),
        out[k] = ⟨(mid[k]).mass,
          ((mid[k]).pos.1 + (mid[k]).vel.1 * dt, (mid[k]).pos.2 + (mid[k]).vel.2 * dt),
          (mid[k]).vel⟩ := by
  unfold update at h
  cases hu : update_velocity system dt with
  | none => rw [hu] at h; exact Option.noConfusion h
  | some mid =>
    rw [hu] at h
    have hmid : update_positions mid dt = out := Option.some.inj h
    subst hmid
    refine ⟨mid, rfl, ?_, ?_⟩
    · simp [update_positions]
    · intro k hk hk2
      simp only [update_positions]
      exact List.getElem_map _

lemma update_velocity_one_body :
    update_velocity [(⟨1, (0, 0), (2, 3)⟩ : Body)] 1 = some [⟨1, (0, 0), (2, 3)⟩] := by
  show update_velocity_go 1 (List.range 1) [⟨1, (0, 0), (2, 3)⟩] = _
  rw [show List.range 1 = [0] from rfl]
  simp only [update_velocity_go, List.getElem?_cons_zero]
  norm_num [calculate_acceleration, calculate_net_force_on, net_force_aux]

lemma update_one_body :
    update [(⟨1, (0, 0), (2, 3)⟩ : Body)] 1 = some [⟨1, (2, 3), (2, 3)⟩] := by
  unfold update
  rw [update_velocity_one_body]
  norm_num [update_positions]

/-- Witness for C4: one concrete body with zero net force. -/
theorem update_velocity_then_positions_witness :
    update [(⟨1, (0, 0), (2, 3)⟩ : Body)] 1 = some [⟨1, (2, 3), (2, 3)⟩] ∧
    ∃ mid, update_velocity [(⟨1, (0, 0), (2, 3)⟩ : Body)] 1 = some mid ∧
      ([(⟨1, (2, 3), (2, 3)⟩ : Body)] : List Body).length = mid.length ∧
      ∀ k (hk : k < mid.length)
        (hk2 : k < ([(⟨1, (2, 3), (2, 3)⟩ : Body)] : List Body).length),
        ([(⟨1, (2, 3), (2, 3)⟩ : Body)])[k] = ⟨(mid[k]).mass,
          ((mid[k]).pos.1 + (mid[k]).vel.1 * 1, (mid[k]).pos.2 + (mid[k]).vel.2 * 1),
          (mid[k]).vel⟩ :=
  ⟨update_one_body, update_velocity_then_positions _ _ _ update_one_body⟩

/-! ### C2: `update_velocity` computes accelerations from the pre-call state -/

/-- Relation between a snapshot element `o` and the corresponding element `o'`
of a partially velocity-updated list, relative to the body `b` whose net force
is being computed: either the slot is untouched, or only its velocity changed
and (because the slot's earlier iteration succeeded) it is value-equal to `b`
or at a different position from `b`. -/
def ForceEquiv (b o o2 : Body) : Prop :=
  o = o2 ∨ (o.mass = o2.mass ∧ o.pos = o2.pos ∧ (o = b ∨ o.pos ≠ b.pos))

lemma net_force_aux_congr (b : Body) {l l2 : List Body}
    (hf : List.Forall₂ (ForceEquiv b) l l2) :
    ∀ (acc v : ℝ × ℝ), net_force_aux b l2 acc = some v → net_force_aux b l acc = some v := by
  induction hf with
  | nil => intro acc v h; exact h
  | @cons o o2 tl tl2 rel htail ih =>
    intro acc v h
    rcases rel with rfl | ⟨hm, hp, hd⟩
    · simp only [net_force_aux] at h ⊢
      by_cases hob : o = b
      · rw [if_pos hob] at h ⊢
        exact ih _ _ h
      · rw [if_neg hob] at h ⊢
        cases hcf : calculate_force b o with
        | none => rw [hcf] at h; exact Option.noConfusion h
        | some f => rw [hcf] at h; exact ih _ _ h
    · by_cases hob : o = b
      · have hpb : o2.pos = b.pos := by rw [← hp, hob]
        by_cases hob2 : o2 = b
        · simp only [net_force_aux, if_pos hob, if_pos hob2] at h ⊢
          exact ih _ _ h
        · have hnone : calculate_force b o2 = none :=
            (calculate_force_eq_none_iff b o2).mpr hpb.symm
          simp only [net_force_aux, if_neg hob2] at h
          rw [hnone] at h
          exact Option.noConfusion h
      · have hdp : o.pos ≠ b.pos := hd.resolve_left hob
        have hob2 : o2 ≠ b := fun he => hdp (by rw [hp, he])
        have hforce : calculate_force b o = calculate_force b o2 :=
          calculate_force_mass_pos_congr b o b o2 rfl rfl hm hp
        simp only [net_force_aux, if_neg hob, if_neg hob2] at h ⊢
        rw [← hforce] at h
        cases hcf : calculate_force b o with
        | none => rw [hcf] at h; exact Option.noConfusion h
        | some f => rw [hcf] at h; exact ih _ _ h

lemma net_force_aux_some_sep (b : Body) :
    ∀ (l : List Body) (acc v : ℝ × ℝ), net_force_aux b l acc = some v →
      ∀ o ∈ l, o = b ∨ o.pos ≠ b.pos := by
  intro l
  induction l with
  | nil => intro acc v h o ho; exact absurd ho (List.not_mem_nil o)
  | cons o rest ih =>
    intro acc v h o2 ho2
    simp only [net_force_aux] at h
    by_cases hob : o = b
    · rw [if_pos hob] at h
      rcases List.mem_cons.mp ho2 with rfl | hmem
      · exact Or.inl hob
      · exact ih _ _ h o2 hmem
    · rw [if_neg hob] at h
      cases hcf : calculate_force b o with
      | none => rw [hcf] at h; exact Option.noConfusion h
      | some f =>
        rw [hcf] at h
        rcases List.mem_cons.mp ho2 with rfl | hmem
        · refine Or.inr fun he => ?_
          rw [(calculate_force_eq_none_iff b o2).mpr he.symm] at hcf
          exact Option.noConfusion hcf
        · exact ih _ _ h o2 hmem

lemma calculate_acceleration_congr (b : Body) {l l2 : List Body}
    (hf : List.Forall₂ (ForceEquiv b) l l2) (A : ℝ × ℝ)
    (h : calculate_acceleration b l2 = some A) : calculate_acceleration b l = some A := by
  unfold calculate_acceleration at h ⊢
  cases hn : calculate_net_force_on b l2 with
  | none => rw [hn] at h; exact Option.noConfusion h
  | some p =>
    obtain ⟨fx, fy⟩ := p
    rw [hn] at h
    have hl : calculate_net_force_on b l = some (fx, fy) :=
      net_force_aux_congr b hf _ _ hn
    rw [hl]
    exact h

lemma calculate_acceleration_some_sep (b : Body) (l : List Body) (A : ℝ × ℝ)
    (h : calculate_acceleration b l = some A) : ∀ o ∈ l, o = b ∨ o.pos ≠ b.pos := by
  unfold calculate_acceleration at h
  cases hn : calculate_net_force_on b l with
  | none => rw [hn] at h; exact Option.noConfusion h
  | some p => exact net_force_aux_some_sep b l _ p hn

lemma update_velocity_go_spec (dt : ℝ) :
    ∀ (cnt i : ℕ) (s0 s out : List Body),
      i + cnt = s0.length →
      s.length = s0.length →
      (∀ j (hj : j < s0.length) (hjs : j < s.length), i ≤ j → s[j] = s0[j]) →
      (∀ j (hj : j < s0.length) (hjs : j < s.length), j < i →
        s[j].mass = s0[j].mass ∧ s[j].pos = s0[j].pos) →
      (∀ j (hj : j < s0.length), j < i → ∀ k (hk : k < s0.length), i ≤ k →
        s0[j] = s0[k] ∨ (s0[j]).pos ≠ (s0[k]).pos) →
      update_velocity_go dt (List.range' i cnt) s = some out →
      out.length = s0.length ∧
      (∀ j (hjs : j < s.length) (ho : j < out.length), j < i → out[j] = s[j]) ∧
      (∀ j (hj : j < s0.length) (ho : j < out.length), i ≤ j →
        ∃ ax ay, calculate_acceleration s0[j] s0 = some (ax, ay) ∧
          out[j] = ⟨(s0[j]).mass, (s0[j]).pos,
            ((s0[j]).vel.1 + ax * dt, (s0[j]).vel.2 + ay * dt)⟩) := by
  intro cnt
  induction cnt with
  | zero =>
    intro i s0 s out hcnt hlen htail hmp hsep h
    have hout : s = out := by simpa [update_velocity_go] using h
    subst hout
    exact ⟨hlen, fun j hjs ho hji => rfl, fun j hj ho hij => absurd hj (by omega)⟩
  | succ cnt ih =>
    intro i s0 s out hcnt hlen htail hmp hsep h
    rw [List.range'_succ] at h
    simp only [update_velocity_go] at h
    have hi0 : i < s0.length := by omega
    have his : i < s.length := by omega
    split at h
    · exact Option.noConfusion h
    · rename_i b hq
      split at h
      · exact Option.noConfusion h
      · rename_i ax ay ha
        have hsome := List.getElem?_eq_getElem his
        rw [hq] at hsome
        have hbi : b = s0[i] := (Option.some.inj hsome).trans (htail i hi0 his le_rfl)
        subst hbi
        have hforall : List.Forall₂ (ForceEquiv s0[i]) s0 s := by
          rw [List.forall₂_iff_get]
          refine ⟨hlen.symm, fun k hk1 hk2 => ?_⟩
          simp only [List.get_eq_getElem]
          by_cases hki : i ≤ k
          · exact Or.inl (htail k hk1 hk2 hki).symm
          · push_neg at hki
            obtain ⟨h1, h2⟩ := hmp k hk1 hk2 hki
            exact Or.inr ⟨h1.symm, h2.symm, hsep k hk1 hki i hi0 le_rfl⟩
        have hacc0 : calculate_acceleration s0[i] s0 = some (ax, ay) :=
          calculate_acceleration_congr _ hforall _ ha
        have hsep_i : ∀ k (hk : k < s0.length), i + 1 ≤ k →
            s0[i] = s0[k] ∨ (s0[i]).pos ≠ (s0[k]).pos := by
          intro k hk hik
          have hks : k < s.length := by omega
          have hmem : s[k] ∈ s := List.getElem_mem hks
          have hsk := calculate_acceleration_some_sep _ s _ ha (s[k]) hmem
          rw [htail k hk hks (by omega)] at hsk
          rcases hsk with he | hne
          · exact Or.inl he.symm
          · exact Or.inr (Ne.symm hne)
        set nb : Body := ⟨(s0[i]).mass, (s0[i]).pos,
          ((s0[i]).vel.1 + ax * dt, (s0[i]).vel.2 + ay * dt)⟩ with hnb
        have hlen2 : (s.set i nb).length = s0.length := by
          rw [List.length_set]; exact hlen
        have htail2 : ∀ j (hj : j < s0.length) (hjs : j < (s.set i nb).length), i + 1 ≤ j →
            (s.set i nb)[j] = s0[j] := by
          intro j hj hjs hij
          have hjs2 : j < s.length := by rw [List.length_set] at hjs; exact hjs
          rw [List.getElem_set_ne (by omega) hjs]
          exact htail j hj hjs2 (by omega)
        have hmp2 : ∀ j (hj : j < s0.length) (hjs : j < (s.set i nb).length), j < i + 1 →
            (s.set i nb)[j].mass = s0[j].mass ∧ (s.set i nb)[j].pos = s0[j].pos := by
          intro j hj hjs hij
          have hjs2 : j < s.length := by rw [List.length_set] at hjs; exact hjs
          by_cases hje : j = i
          · subst hje
            rw [List.getElem_set_self hjs]
            exact ⟨rfl, rfl⟩
          · rw [List.getElem_set_ne (fun hh => hje hh.symm) hjs]
            exact hmp j hj hjs2 (by omega)
        have hsep2 : ∀ j (hj : j < s0.length), j < i + 1 → ∀ k (hk : k < s0.length),
            i + 1 ≤ k → s0[j] = s0[k] ∨ (s0[j]).pos ≠ (s0[k]).pos := by
          intro j hj hji k hk hik
          by_cases hje : j = i
          · subst hje
            exact hsep_i k hk hik
          · exact hsep j hj (by omega) k hk (by omega)
        have hrec := ih (i + 1) s0 (s.set i nb) out (by omega) hlen2 htail2 hmp2 hsep2 h
        refine ⟨hrec.1, ?_, ?_⟩
        · intro j hjs ho hji
          have hjs2 : j < (s.set i nb).length := by rw [List.length_set]; exact hjs
          rw [hrec.2.1 j hjs2 ho (by omega)]
          exact List.getElem_set_ne (by omega) hjs2
        · intro j hj ho hij
          by_cases hje : j = i
          · subst hje
            refine ⟨ax, ay, hacc0, ?_⟩
            have hset_len : j < (s.set j nb).length := by rw [List.length_set]; omega
            rw [hrec.2.1 j hset_len ho (by omega)]
            exact List.getElem_set_self hset_len
          · exact hrec.2.2 j hj ho (by omega)

/-- C2: if `update_velocity` completes, each body's new velocity is its old
velocity plus `dt` times the acceleration computed from the pre-call state of
all bodies (mass and position unchanged); although the in-place loop exposes
the already-updated velocities of earlier slots, those velocities never reach
a force value, so no body's acceleration reflects them. -/
theorem update_velocity_uses_snapshot (system : List Body) (dt : ℝ) (out : List Body)
    (h : update_velocity system dt = some out) :
    out.length = system.length ∧
    ∀ j (hj : j < system.length) (ho : j < out.length),
      ∃ ax ay, calculate_acceleration system[j] system = some (ax, ay) ∧
        out[j] = ⟨(system[j]).mass, (system[j]).pos,
          ((system[j]).vel.1 + ax * dt, (system[j]).vel.2 + ay * dt)⟩ := by
  rw [update_velocity, List.range_eq_range'] at h
  have hm := update_velocity_go_spec dt system.length 0 system system out (by omega) rfl
    (fun j hj hjs _ => rfl) (fun j hj hjs hji => absurd hji (by omega))
    (fun j hj hji => absurd hji (by omega)) h
  exact ⟨hm.1, fun j hj ho => hm.2.2 j hj ho (by omega)⟩

/-- Witness for C2: one concrete body (zero net force, so the velocity is
unchanged). -/
theorem update_velocity_uses_snapshot_witness :
    update_velocity [(⟨1, (0, 0), (2, 3)⟩ : Body)] 1 = some [⟨1, (0, 0), (2, 3)⟩] ∧
    (([⟨1, (0, 0), (2, 3)⟩] : List Body).length =
        ([⟨1, (0, 0), (2, 3)⟩] : List Body).length ∧
    ∀ j (hj : j < ([⟨1, (0, 0), (2, 3)⟩] : List Body).length)
      (ho : j < ([⟨1, (0, 0), (2, 3)⟩] : List Body).length),
      ∃ ax ay, calculate_acceleration ([(⟨1, (0, 0), (2, 3)⟩ : Body)])[j]
          [⟨1, (0, 0), (2, 3)⟩] = some (ax, ay) ∧
        ([(⟨1, (0, 0), (2, 3)⟩ : Body)])[j] = ⟨(([(⟨1, (0, 0), (2, 3)⟩ : Body)])[j]).mass,
          (([(⟨1, (0, 0), (2, 3)⟩ : Body)])[j]).pos,
          ((([(⟨1, (0, 0), (2, 3)⟩ : Body)])[j]).vel.1 + ax * 1,
           (([(⟨1, (0, 0), (2, 3)⟩ : Body)])[j]).vel.2 + ay * 1)⟩) :=
  ⟨update_velocity_one_body, update_velocity_uses_snapshot _ _ _ update_velocity_one_body⟩
